import Mathlib

/-!
Verification development for the DiTing job-orchestration subsystem.

Shallow embedding of the core components:
 - Task Registry            (src/app/core/task_manager.py)
 - ASR Routing Client       (src/app/asr/client.py, selection logic)
 - Download retry wrapper   (src/app/downloaders/_utils.py)
 - Media Cache Service      (src/app/services/media_cache.py,
                             src/app/db/media_cache_entries.py)
 - Transcription Pipeline   (src/app/services/transcription/pipeline.py,
                             outcome handlers and the cleanup stage)

Python dictionaries are modelled as association lists or as functions to
Option; the SQLite tables as lists of rows; the on-disk cache directory as an
association list from relative path to byte size; wall-clock timestamps as
natural-number seconds.  Machine integers stay exact (Python ints are
arbitrary precision).  Effects (logging, DB commits) that do not change the
modelled state are dropped.
-/

namespace DiTing

/-! ### Generic association-list helpers (model for Python dict / keyed rows) -/

/-- Lookup of the first binding of a key, as Python `d.get(k)`. -/
def assocGet {α β : Type} [DecidableEq α] (l : List (α × β)) (k : α) : Option β :=
  match l with
  | [] => none
  | (k', v) :: rest => if k' = k then some v else assocGet rest k

/-- Overwrite the first binding of a key, appending when absent, as `d[k] = v`. -/
def assocSet {α β : Type} [DecidableEq α] (l : List (α × β)) (k : α) (v : β) :
    List (α × β) :=
  match l with
  | [] => [(k, v)]
  | (k', v') :: rest =>
    if k' = k then (k', v) :: rest else (k', v') :: assocSet rest k v

/-- Drop the first binding of a key, as `del d[k]` / setting a column to NULL. -/
def assocErase {α β : Type} [DecidableEq α] (l : List (α × β)) (k : α) :
    List (α × β) :=
  match l with
  | [] => []
  | (k', v') :: rest => if k' = k then rest else (k', v') :: assocErase rest k

/-! ### Task Registry (src/app/core/task_manager.py, class TaskManager)

A task record holds the mutable per-job fields of `self.tasks[task_id]`;
`start_time` / `end_time` (wall-clock floats) and the free-form `meta` dict
carry no behaviour and are dropped. The `cancel_event` threading.Event is a
write-once boolean. Progress is stored as a number (the code passes floats
but only ever whole percentages); we embed it as `Nat`. -/

structure TaskRec where
  status : String
  progress : Nat
  message : String
  cancelEvent : Bool
  deriving Repr, DecidableEq

/-- Embeds `TaskManager.MAX_HISTORY`. -/
def MAX_HISTORY : Nat := 20

/-- Registry state: the `tasks` dict and the `_finished_ids` FIFO deque. -/
structure TMState where
  tasks : Int → Option TaskRec
  finishedIds : List Int

/-- The freshly constructed singleton (empty dict, empty deque). -/
def initTM : TMState := { tasks := fun _ => none, finishedIds := [] }

/-- Embeds `TaskManager.start_task`: registers (or re-registers) the id with a fresh
record: status "processing", progress 0, message "Starting...", clear event. -/
def startTask (s : TMState) (id : Int) : TMState :=
  { s with tasks := fun k =>
      if k = id then some ⟨"processing", 0, "Starting...", false⟩ else s.tasks k }

/-- Embeds `TaskManager.update_progress`: no-op on an unknown id; the message is only
overwritten when the argument is truthy (non-None, non-empty). -/
def updateProgress (s : TMState) (id : Int) (p : Nat) (msg : Option String) :
    TMState :=
  match s.tasks id with
  | none => s
  | some r =>
    let r' : TaskRec :=
      { r with progress := p,
               message := match msg with
                          | some m => if m = "" then r.message else m
                          | none => r.message }
    { s with tasks := fun k => if k = id then some r' else s.tasks k }

/-- Embeds `TaskManager.cancel_task`: sets the cancel event and status "cancelling";
returns False (and leaves the state alone) on an unknown id. -/
def cancelTask (s : TMState) (id : Int) : Bool × TMState :=
  match s.tasks id with
  | none => (false, s)
  | some r =>
    (true,
     { s with tasks := fun k =>
         if k = id then some { r with cancelEvent := true, status := "cancelling" }
         else s.tasks k })

/-- Embeds `TaskManager.is_cancelled`: true when the id is registered and its cancel
event is set. -/
def isCancelled (s : TMState) (id : Int) : Bool :=
  match s.tasks id with
  | some r => r.cancelEvent
  | none => false

/-- Embeds `TaskManager.check_cancel`: raises `TaskCancelledException` precisely when
`is_cancelled` holds; modelled as `Except` (error = the raised exception). -/
def checkCancel (s : TMState) (id : Int) : Except String Unit :=
  if isCancelled s id then
    .error ("Task " ++ toString id ++ " cancelled by user")
  else .ok ()

/-- The `while len(self._finished_ids) > self.MAX_HISTORY` eviction loop inside
`finish_task`: pop the oldest finished id and drop its full record. -/
def evictLoop (ids : List Int) (tasks : Int → Option TaskRec) :
    List Int × (Int → Option TaskRec) :=
  match ids with
  | [] => ([], tasks)
  | old :: rest =>
    if (old :: rest).length > MAX_HISTORY then
      evictLoop rest (fun k => if k = old then none else tasks k)
    else (old :: rest, tasks)

/-- Embeds `TaskManager.finish_task`: unless the status is already "cancelled" or
"failed", set it to "completed" with progress 100; append the id to the
finished FIFO and evict oldest records while over capacity. -/
def finishTask (s : TMState) (id : Int) : TMState :=
  match s.tasks id with
  | none => s
  | some r =>
    let r' : TaskRec :=
      if r.status = "cancelled" ∨ r.status = "failed" then r
      else { r with status := "completed", progress := 100 }
    let tasks' : Int → Option TaskRec :=
      fun k => if k = id then some r' else s.tasks k
    let res := evictLoop (s.finishedIds ++ [id]) tasks'
    { tasks := res.2, finishedIds := res.1 }

/-- Embeds `TaskManager.remove_task`: drop the record and the first occurrence of the
id in the finished FIFO. -/
def removeTask (s : TMState) (id : Int) : TMState :=
  { tasks := fun k => if k = id then none else s.tasks k,
    finishedIds := s.finishedIds.erase id }

/-- The registry mutations (get_task_status / is_cancelled are read-only). -/
inductive RegOp where
  | start (id : Int)
  | update (id : Int) (p : Nat) (msg : Option String)
  | cancel (id : Int)
  | finish (id : Int)
  | remove (id : Int)
  deriving Repr, DecidableEq

def applyOp (s : TMState) : RegOp → TMState
  | .start id => startTask s id
  | .update id p m => updateProgress s id p m
  | .cancel id => (cancelTask s id).2
  | .finish id => finishTask s id
  | .remove id => removeTask s id

def applyOps (s : TMState) (ops : List RegOp) : TMState := ops.foldl applyOp s

/-- The cancel flag of a still-registered record. -/
def cancelFlagOk (s : TMState) (id : Int) : Prop :=
  ∀ r, s.tasks id = some r → r.cancelEvent = true

/-- A trace that starts and finishes jobs 1..n in order, filling the
finished-task history. -/
def startFinishOps : Nat → List RegOp
  | 0 => []
  | n + 1 => startFinishOps n ++
      [RegOp.start ((n : Int) + 1), RegOp.finish ((n : Int) + 1)]

/-! ### ASR Routing Client (src/app/asr/client.py, class ASRClient)

Only the selection logic (`select_worker` and `_check_availability`) is
embedded; health probing and the HTTP calls are external network effects.
`self.availability` is the dict written by `check_health`; `self.config`
holds the runtime routing configuration. -/

structure ASRConfig where
  priority : List String
  strictMode : Bool
  activeEngine : Option String
  disabledEngines : List String
  deriving Repr, DecidableEq

structure ASRState where
  config : ASRConfig
  availability : List (String × Bool)
  deriving Repr, DecidableEq

/-- Embeds `self.availability.get(engine, False)`. -/
def getAvail (s : ASRState) (engine : String) : Bool :=
  (assocGet s.availability engine).getD false

/-- Embeds `ASRClient._check_availability`: the engine itself when available,
else a raised RuntimeError. -/
def checkAvailability (s : ASRState) (engine : String) : Except String String :=
  if getAvail s engine then .ok engine
  else .error ("Engine \x27" ++ engine ++ "\x27 is offline.")

/-- The `for e in self.config["priority"]` loop of `select_worker`: skip an
engine that is disabled and not the active one; return the first remaining
engine that is available. -/
def scanPriorityList (s : ASRState) (active : Option String)
    (disabled : List String) : List String → Option String
  | [] => none
  | e :: rest =>
    if e ∈ disabled ∧ some e ≠ active then scanPriorityList s active disabled rest
    else if getAvail s e then some e
    else scanPriorityList s active disabled rest

/-- Error message of the final `raise RuntimeError` in `select_worker`. -/
def noEnginesMsg : String :=
  "No available ASR engines (checked priority list and skipped disabled ones)."

/-- Steps 3 and 4 of `select_worker`: the priority scan, then the fallback to
the active engine if it is available although it was skipped above. -/
def selectFromPriority (s : ASRState) : Except String String :=
  match scanPriorityList s s.config.activeEngine s.config.disabledEngines
      s.config.priority with
  | some e => .ok e
  | none =>
    match s.config.activeEngine with
    | some a => if getAvail s a then .ok a else .error noEnginesMsg
    | none => .error noEnginesMsg

/-- Embeds `ASRClient.select_worker`: a caller override (checked for availability
only), then strict mode with a pinned active engine, then the priority scan
with its fallback. -/
def selectWorker (s : ASRState) (preferredEngine : Option String) :
    Except String String :=
  match preferredEngine with
  | some p => checkAvailability s p
  | none =>
    match s.config.strictMode, s.config.activeEngine with
    | true, some a =>
      match checkAvailability s a with
      | .ok e => .ok e
      | .error _ =>
        .error ("Strict Mode: Active engine \x27" ++ a ++ "\x27 is offline.")
    | true, none => selectFromPriority s
    | false, _ => selectFromPriority s

/-- Spec-side reading of step 3: the first engine of the priority list that is
available after skipping disabled engines (unless pinned active). -/
def firstAvailable (s : ASRState) : Option String :=
  s.config.priority.find? (fun e =>
    !(decide (e ∈ s.config.disabledEngines) && decide (some e ≠ s.config.activeEngine))
      && getAvail s e)

/-! ### Download retry wrapper (src/app/downloaders/_utils.py)

`retry_on_network_error` wraps a download callable; each invocation of the
wrapped function either returns a value or raises an exception carrying a
message (`str(e)`) and a type name (`type(e).__name__`). We embed the wrapped
callable as a function from the attempt index to its outcome. Sleeps are
recorded (in seconds) instead of performed. -/

inductive Attempt where
  | ok (v : String)
  | exn (msg : String) (tyName : String)
  deriving Repr, DecidableEq

/-- Character-list test that `cs` begins with `pre`. -/
def charsBeginWith : List Char → List Char → Bool
  | _, [] => true
  | [], _ :: _ => false
  | c :: cs, d :: ds => c == d && charsBeginWith cs ds

/-- Character-list test that `needle` occurs somewhere in the haystack. -/
def charsContain (needle : List Char) : List Char → Bool
  | [] => charsBeginWith [] needle
  | c :: t => charsBeginWith (c :: t) needle || charsContain needle t

/-- Substring test, as Python `needle in hay` (for non-empty needles). -/
def containsSub (hay needle : String) : Bool := charsContain needle.data hay.data

/-- Python `s.lower()` (ASCII letters). -/
def strToLower (s : String) : String := ⟨s.data.map Char.toLower⟩

/-- Embeds `check_and_reraise_cancel`: an exception is a cancellation signal when
"cancelled" occurs in its lowercased message or its type name is
`TaskCancelledException`. -/
def isCancelSignal (msg tyName : String) : Bool :=
  containsSub (strToLower msg) "cancelled" || tyName == "TaskCancelledException"

/-- Embeds `NETWORK_KEYWORDS` of `retry_on_network_error`. -/
def NETWORK_KEYWORDS : List String :=
  ["timeout", "connection", "network", "timed out", "urlopen"]

/-- The keyword heuristic `any(kw in error_str for kw in NETWORK_KEYWORDS)`. -/
def isNetworkErr (msg : String) : Bool :=
  NETWORK_KEYWORDS.any (fun kw => containsSub (strToLower msg) kw)

inductive RetryResult where
  /-- the wrapped call returned a value -/
  | value (v : String)
  /-- a cancellation exception was re-raised by `check_and_reraise_cancel` -/
  | raisedCancel (msg tyName : String)
  /-- the wrapper swallowed the error and returned None -/
  | returnedNone
  deriving Repr, DecidableEq

/-- The `for attempt in range(max_retries)` loop of `retry_on_network_error`;
`fuel` counts the remaining loop iterations, `slept` the backoff sleeps taken
so far (`retry_delay * (2 ** attempt)` seconds each). -/
def retryGo (f : Nat → Attempt) (maxRetries retryDelay : Nat) :
    Nat → Nat → List Nat → RetryResult × List Nat
  | _, 0, slept => (.returnedNone, slept)
  | attempt, fuel + 1, slept =>
    match f attempt with
    | .ok v => (.value v, slept)
    | .exn msg tyName =>
      if isCancelSignal msg tyName then (.raisedCancel msg tyName, slept)
      else if isNetworkErr msg && attempt < maxRetries - 1 then
        retryGo f maxRetries retryDelay (attempt + 1) fuel
          (slept ++ [retryDelay * 2 ^ attempt])
      else (.returnedNone, slept)

/-- Embeds `retry_on_network_error(max_retries, retry_delay)` applied to a wrapped
callable, starting at attempt 0. -/
def retryOnNetworkError (f : Nat → Attempt) (maxRetries retryDelay : Nat) :
    RetryResult × List Nat :=
  retryGo f maxRetries retryDelay 0 maxRetries []

/-! ### String helpers for the Media Cache Service

`get_retention_policy` manipulates the configured policy string with
`str.startswith`, `str.split(":")` and `int(...)`; these are embedded on the
character list underlying `String`. -/

/-- Python `s.startswith(p)`. -/
def strStartsWith (s p : String) : Bool := charsBeginWith s.data p.data

/-- Python `s.split(sep)` for a single-character separator: splits at every
occurrence, keeping empty segments. -/
def splitOnChar (sep : Char) : List Char → List (List Char)
  | [] => [[]]
  | d :: rest =>
    let r := splitOnChar sep rest
    if d == sep then [] :: r
    else
      match r with
      | h :: t => (d :: h) :: t
      | [] => [[d]]

/-- Python `s.split(":")`. -/
def pySplitColon (s : String) : List String :=
  (splitOnChar ':' s.data).map (fun cs => ⟨cs⟩)

/-- Decimal value of a digit list. -/
def digitsToNat (l : List Char) : Nat :=
  l.foldl (fun acc c => acc * 10 + (c.toNat - 48)) 0

/-- Strip leading and trailing whitespace from a character list. -/
def trimChars (l : List Char) : List Char :=
  ((l.dropWhile Char.isWhitespace).reverse.dropWhile Char.isWhitespace).reverse

/-- Python `int(s)`: optional surrounding whitespace, an optional sign, then
one or more decimal digits (numeric underscores are not modelled); `none`
models a raised ValueError. -/
def parsePyInt (s : String) : Option Int :=
  match trimChars s.data with
  | '-' :: rest =>
    if rest ≠ [] ∧ rest.all Char.isDigit then some (-(digitsToNat rest : Int))
    else none
  | '+' :: rest =>
    if rest ≠ [] ∧ rest.all Char.isDigit then some (digitsToNat rest : Int)
    else none
  | t =>
    if t ≠ [] ∧ t.all Char.isDigit then some (digitsToNat t : Int)
    else none

/-! ### Media Cache Service (src/app/services/media_cache.py)

State carried by the service: the `media_cache_entries` table, the
`video_meta` per-source policy columns (`cache_policy`, `cache_expires_at`),
the cache directory contents (relative path to byte size; the code always
derives the on-disk path of an entry from its stored relative path, so files
are keyed by relative path), the `media_retention_policy` config string, the
capacity limit, and the `transcriptions.source` column used as fallback when
`cache_file` gets no explicit source. Timestamps are seconds as `Nat`; the
capacity limit is carried already converted to bytes (`none` models a
missing, unparseable or non-positive `media_cache_capacity_gb`, for which the
code skips capacity enforcement). -/

structure CacheEntry where
  sourceId : String
  quality : String
  mediaPath : String
  fileSize : Nat
  cachedAt : Nat
  deriving Repr, DecidableEq

structure CacheState where
  entries : List CacheEntry
  /-- Embeds `video_meta.cache_policy` for sources where it is non-NULL. -/
  policies : List (String × String)
  /-- Embeds `video_meta.cache_expires_at` for sources where it is non-NULL. -/
  expiries : List (String × Nat)
  /-- cache-directory listing: relative path to byte size. -/
  files : List (String × Nat)
  /-- Embeds `system_configs["media_retention_policy"]` (none = key absent). -/
  retentionConfig : Option String
  /-- capacity budget in bytes; none = capacity enforcement disabled. -/
  capacityBytes : Option Nat
  /-- Embeds `transcriptions.id` to `transcriptions.source`. -/
  transcriptions : List (Nat × String)
  /-- Embeds `datetime.now()` in seconds. -/
  now : Nat
  deriving Repr, DecidableEq

def SECONDS_PER_DAY : Nat := 86400

def SECONDS_PER_HOUR : Nat := 3600

/-- Embeds `MediaCacheService.get_retention_policy`: parse the configured string
(default "keep_days:3") into (policy name, days). A "keep_days:N" string whose
N does not parse as an int degrades to ("delete_after_asr", 0); the segment at
index 1 of the split always exists because the string starts with
"keep_days:". -/
def getRetentionPolicy (cfg : Option String) : String × Int :=
  let policyStr := cfg.getD "keep_days:3"
  if strStartsWith policyStr "keep_days:" then
    match parsePyInt (((pySplitColon policyStr).get? 1).getD "") with
    | some d => ("keep_days", d)
    | none => ("delete_after_asr", 0)
  else (policyStr, 0)

/-- Embeds `MediaCacheService.should_keep`. -/
def shouldKeep (cfg : Option String) : Bool :=
  (getRetentionPolicy cfg).1 ≠ "delete_after_asr"

/-- Embeds `vm.cache_policy` after the LEFT JOIN: none when the source has no
video_meta row or a NULL policy. -/
def metaPolicy (s : CacheState) (src : String) : Option String :=
  assocGet s.policies src

/-- Embeds `vm.cache_expires_at` after the LEFT JOIN. -/
def metaExpires (s : CacheState) (src : String) : Option Nat :=
  assocGet s.expiries src

/-- Embeds `os.path.exists` / `os.path.getsize` on the cache directory. -/
def fsGet (files : List (String × Nat)) (p : String) : Option Nat :=
  assocGet files p

/-- Embeds `os.remove`. -/
def fsRemove (files : List (String × Nat)) (p : String) : List (String × Nat) :=
  files.filter (fun f => f.1 ≠ p)

/-- Embeds `os.path.basename`. -/
def pyBasename (p : String) : String := ⟨(splitOnChar '/' p.data).getLastD p.data⟩

/-- Rejoin split segments with '.', inverse of `splitOnChar '.'`. -/
def joinDots : List (List Char) → List Char
  | [] => []
  | [x] => x
  | x :: xs => x ++ '.' :: joinDots xs

/-- The extension part of `os.path.splitext`: the suffix of the basename from
its last dot, except that a basename whose characters before that dot are all
dots has no extension. -/
def pyExt (p : String) : String :=
  let parts := splitOnChar '.' (pyBasename p).data
  match parts with
  | [] => ""
  | [_] => ""
  | _ =>
    let stem := joinDots parts.dropLast
    if stem.all (fun c => c = '.') then ""
    else ⟨'.' :: parts.getLastD []⟩

/-- Stand-in for `hashlib.md5(source).hexdigest()`: a deterministic injective
encoding; only determinism is relied on by the theorems. -/
def md5Hex (s : String) : String := "md5-" ++ s

/-- The target filename `cache_file` derives from source, quality and the
temp file extension ("best" and the empty quality map to the bare hash). -/
def cacheTargetName (src quality temp : String) : String :=
  if quality ≠ "" ∧ quality ≠ "best" then md5Hex src ++ "_" ++ quality ++ pyExt temp
  else md5Hex src ++ pyExt temp

/-- Embeds `upsert_cache_entry` (src/app/db/media_cache_entries.py): insert, or on
the UNIQUE(source_id, quality) conflict update path, size and cached_at. -/
def upsertEntry (l : List CacheEntry) (sid q p : String) (sz t : Nat) :
    List CacheEntry :=
  match l with
  | [] => [⟨sid, q, p, sz, t⟩]
  | e :: rest =>
    if e.sourceId = sid ∧ e.quality = q then ⟨sid, q, p, sz, t⟩ :: rest
    else e :: upsertEntry rest sid q p sz t

/-- Embeds `MediaCacheService._reset_expired_policy`: when the source has a custom
policy whose expiry is in the past, NULL both policy columns. -/
def resetExpiredPolicy (st : CacheState) (sid : String) : CacheState :=
  if assocGet st.policies sid = some "custom" then
    match assocGet st.expiries sid with
    | some t =>
      if t < st.now then
        { st with policies := assocErase st.policies sid,
                  expiries := assocErase st.expiries sid }
      else st
    | none => st
  else st

/-- Embeds `MediaCacheService.cache_file`: no-op (returning None) when the temp file
is missing; otherwise derive the hash-based target name (falling back to
id-based naming without a source), discard the temp file when the target
already materialized for a source, else move the temp file into place; then
record the entry with the target's actual size (resolving the source from the
transcription row when absent) and reset an expired custom policy. Returns the
relative path. -/
def cacheFile (st : CacheState) (tempPath : String) (transcriptionId : Nat)
    (source : Option String) (quality : String) : CacheState × Option String :=
  if (fsGet st.files tempPath).isNone then (st, none)
  else
    let newFilename :=
      match source with
      | some src => cacheTargetName src quality tempPath
      | none => toString transcriptionId ++ "_" ++ pyBasename tempPath
    let relativePath := "data/media_cache/" ++ newFilename
    let files1 :=
      if (fsGet st.files relativePath).isSome ∧ source.isSome then
        fsRemove st.files tempPath
      else
        let sz := (fsGet st.files tempPath).getD 0
        (relativePath, sz) :: fsRemove (fsRemove st.files tempPath) relativePath
    let fileSize := (fsGet files1 relativePath).getD 0
    let sourceId : Option String :=
      match source with
      | some src => some src
      | none => assocGet st.transcriptions transcriptionId
    let st1 := { st with files := files1 }
    match sourceId with
    | some sid =>
      let st2 :=
        { st1 with entries :=
            upsertEntry st1.entries sid quality relativePath fileSize st.now }
      (resetExpiredPolicy st2 sid, some relativePath)
    | none => (st1, some relativePath)

/-- Embeds `MediaCacheService.cleanup_or_delete`: nothing for a missing path; cache
the file when the retention policy says keep, delete it otherwise. -/
def cleanupOrDelete (st : CacheState) (tempPath : Option String)
    (transcriptionId : Nat) (source : Option String) (quality : String) :
    CacheState :=
  match tempPath with
  | none => st
  | some p =>
    if (fsGet st.files p).isNone then st
    else if shouldKeep st.retentionConfig then
      (cacheFile st p transcriptionId source quality).1
    else { st with files := fsRemove st.files p }

/-- The WHERE clause of `get_gc_candidates`: the source is not keep_forever,
and either (A) a custom policy with expiry in the past, or (B) no per-source
policy and the entry is past the global keep_days / delete_after_asr cutoff
(`cached_at < now - delta` is written additively). The Python loop's repeated
keep_forever test is subsumed by the first conjunct. -/
def isGcCandidate (s : CacheState) (e : CacheEntry) : Bool :=
  let pol := metaPolicy s e.sourceId
  let g := getRetentionPolicy s.retentionConfig
  let notKF : Bool := decide (pol ≠ some "keep_forever")
  let clauseA : Bool :=
    decide (pol = some "custom") &&
      match metaExpires s e.sourceId with
      | some t => decide (t < s.now)
      | none => false
  let clauseB : Bool :=
    if g.1 = "keep_days" ∧ g.2 > 0 then
      decide (pol = none) && decide (e.cachedAt + g.2.toNat * SECONDS_PER_DAY < s.now)
    else if g.1 = "delete_after_asr" then
      decide (pol = none) && decide (e.cachedAt + SECONDS_PER_HOUR < s.now)
    else false
  notKF && (clauseA || clauseB)

/-- Embeds `MediaCacheService.get_gc_candidates` (the returned rows, as entries). -/
def getGcCandidates (s : CacheState) : List CacheEntry :=
  s.entries.filter (isGcCandidate s)

/-- Embeds `delete_cache_entry`: DELETE WHERE source_id AND quality match. -/
def gcDeleteEntry (st : CacheState) (src q : String) : CacheState :=
  { st with entries :=
      st.entries.filter (fun e => ¬(e.sourceId = src ∧ e.quality = q)) }

/-- The `filesize` field `get_gc_candidates` computes for a candidate:
`file_size or 0`, replaced by the on-disk size when zero and the file exists. -/
def candItemSize (s : CacheState) (e : CacheEntry) : Nat :=
  if e.fileSize ≠ 0 then e.fileSize else (fsGet s.files e.mediaPath).getD 0

/-- Pass 1 of `run_gc`: delete every GC candidate (restricted to the target
set when one is given), removing the DB row first and the file when present.
Candidate sizes are the snapshot taken by `get_gc_candidates`. -/
def runGcExpiry (s : CacheState) (targets : Option (List String)) :
    CacheState × Nat × Nat :=
  (getGcCandidates s).foldl
    (fun acc e =>
      match acc with
      | (st, cnt, freed) =>
        if (match targets with
            | some ts => decide (e.sourceId ∉ ts)
            | none => false) then (st, cnt, freed)
        else
          let st1 := gcDeleteEntry st e.sourceId e.quality
          match fsGet st1.files e.mediaPath with
          | some _ =>
            ({ st1 with files := fsRemove st1.files e.mediaPath },
             cnt + 1, freed + candItemSize s e)
          | none => (st1, cnt, freed))
    (s, 0, 0)

/-- Pass 2 of `run_gc` (full sweep only): delete files in the cache directory
with no matching DB row. -/
def runGcOrphans (st : CacheState) : CacheState × Nat × Nat :=
  let validPaths := st.entries.map (fun e => e.mediaPath)
  st.files.foldl
    (fun acc f =>
      match acc with
      | (st', cnt, freed) =>
        if f.1 ∈ validPaths then (st', cnt, freed)
        else ({ st' with files := fsRemove st'.files f.1 }, cnt + 1, freed + f.2))
    (st, 0, 0)

/-- The total_size field of `get_cache_stats`: SUM(file_size) over the
entries. -/
def totalDbSize (st : CacheState) : Nat :=
  (st.entries.map (fun e => e.fileSize)).sum

/-- The ORDER BY cached_at ASC relation of the capacity-eviction query. -/
def cacheLE (a b : CacheEntry) : Prop := a.cachedAt ≤ b.cachedAt

instance : DecidableRel cacheLE := fun a b => Nat.decLe a.cachedAt b.cachedAt

instance : IsTotal CacheEntry cacheLE := ⟨fun a b => Nat.le_total a.cachedAt b.cachedAt⟩

instance : IsTrans CacheEntry cacheLE := ⟨fun _ _ _ => Nat.le_trans⟩

/-- The eviction loop of pass 3: stop once enough bytes were freed, else
delete the next-oldest candidate row and its file. -/
def capacityEvictLoop (need : Nat) :
    List CacheEntry → CacheState → Nat → Nat → CacheState × Nat × Nat
  | [], st, cnt, freed3 => (st, cnt, freed3)
  | e :: rest, st, cnt, freed3 =>
    if need ≤ freed3 then (st, cnt, freed3)
    else
      let st1 := gcDeleteEntry st e.sourceId e.quality
      match fsGet st1.files e.mediaPath with
      | some sz =>
        capacityEvictLoop need rest
          { st1 with files := fsRemove st1.files e.mediaPath } (cnt + 1)
          (freed3 + sz)
      | none => capacityEvictLoop need rest st1 cnt freed3

/-- The capacity-eviction candidate query: all entries whose source is not
keep_forever, ORDER BY cached_at ASC. -/
def capacityCands (st : CacheState) : List CacheEntry :=
  List.insertionSort cacheLE
    (st.entries.filter (fun e => metaPolicy st e.sourceId ≠ some "keep_forever"))

/-- Pass 3 of `run_gc` (full sweep only): when a capacity budget is configured
and the DB total exceeds it, evict non-keep_forever entries oldest-first until
the freed bytes reach the overshoot. -/
def runGcCapacity (st : CacheState) : CacheState × Nat × Nat :=
  match st.capacityBytes with
  | none => (st, 0, 0)
  | some limit =>
    let current := totalDbSize st
    if current > limit then
      capacityEvictLoop (current - limit) (capacityCands st) st 0 0
    else (st, 0, 0)

/-- Embeds `MediaCacheService.run_gc`: expiry pass, then — on a full sweep only —
orphan pass and capacity pass. Returns (state, deleted_count, freed_bytes). -/
def runGc (s : CacheState) (targets : Option (List String)) :
    CacheState × Nat × Nat :=
  match runGcExpiry s targets with
  | (s1, c1, f1) =>
    match targets with
    | some _ => (s1, c1, f1)
    | none =>
      match runGcOrphans s1 with
      | (s2, c2, f2) =>
        match runGcCapacity s2 with
        | (s3, c3, f3) => (s3, c1 + c2 + c3, f1 + f2 + f3)

/-- Embeds `get_cache_entry` lookup by (source_id, quality). -/
def findEntry (l : List CacheEntry) (sid q : String) : Option CacheEntry :=
  l.find? (fun e => e.sourceId == sid && e.quality == q)

/-! ### Transcription Pipeline outcome handlers and cleanup
(src/app/services/transcription/pipeline.py, lines 184-223)

The try-block of `run_transcription_pipeline` either finalizes with the ASR
text, raises `TaskCancelledException` at a checkpoint, or raises some other
exception; the except/finally tail translates that outcome into the persisted
record and runs the cleanup stage. -/

inductive BodyOutcome where
  | success (text : String)
  | cancelled
  | failure (msg : String)
  deriving Repr, DecidableEq

structure PipelineResult where
  /-- Embeds `update_task_status` terminal value. -/
  taskStatus : String
  /-- Embeds `update_transcription_text` persisted value. -/
  transcriptText : String
  /-- Embeds `task_manager.finish_task` was invoked. -/
  finished : Bool
  deriving Repr, DecidableEq

/-- The success tail (step 5) and the two except handlers. -/
def pipelineHandlers (o : BodyOutcome) : PipelineResult :=
  match o with
  | .success t => ⟨"completed", t, true⟩
  | .cancelled => ⟨"cancelled", "Task Cancelled", true⟩
  | .failure m => ⟨"failed", "Error: " ++ m, true⟩

/-- The finally-block (step 6): a derived temp file (UVR output) is deleted
unconditionally; a fresh (non-cached) download is handed to
`cleanup_or_delete` with quality audio_only; a cache hit is left alone. -/
def pipelineCleanup (st : CacheState) (audioPath : Option String)
    (isTempDerived usingCache : Bool) (transcriptionId : Nat)
    (sourceKey : String) : CacheState :=
  if isTempDerived then
    match audioPath with
    | some p => { st with files := fsRemove st.files p }
    | none => st
  else if usingCache = false then
    cleanupOrDelete st audioPath transcriptionId (some sourceKey) "audio_only"
  else st

/-- The except/finally tail of `run_transcription_pipeline`: the handler for
the outcome together with the cleanup stage, which runs on every outcome. -/
def runPipelineEnd (o : BodyOutcome) (st : CacheState) (audioPath : Option String)
    (isTempDerived usingCache : Bool) (transcriptionId : Nat)
    (sourceKey : String) : PipelineResult × CacheState :=
  (pipelineHandlers o,
   pipelineCleanup st audioPath isTempDerived usingCache transcriptionId sourceKey)

/-! ### Concrete states used by witnesses and counterexamples -/

/-- Engines A (down), B (up), C (up) in priority order, strict mode off,
active engine pinned to A. -/
def exASRState : ASRState :=
  { config := { priority := ["A", "B", "C"], strictMode := false,
                activeEngine := some "A", disabledEngines := [] },
    availability := [("A", false), ("B", true), ("C", true)] }

/-- The same engines with strict mode on. -/
def exASRStrict : ASRState :=
  { exASRState with config := { exASRState.config with strictMode := true } }

/-- A cache state with two pending temp downloads of the same source whose
filenames carry different extensions. -/
def c3CexState : CacheState :=
  { entries := [], policies := [], expiries := [],
    files := [("tmp/a.mp3", 5), ("tmp/b.mp4", 7)],
    retentionConfig := some "always_keep", capacityBytes := none,
    transcriptions := [], now := 100 }

/-- Like `c3CexState` but with temp files of equal extension. -/
def c3SameExtState : CacheState :=
  { c3CexState with files := [("tmp/a.mp3", 5), ("tmp/b.mp3", 7)] }

/-- A single keep_forever entry of size 10 against a capacity budget of 5
bytes: nothing is evictable, the budget stays exceeded. -/
def c2CexState : CacheState :=
  { entries := [⟨"s1", "best", "data/media_cache/p1.mp4", 10, 50⟩],
    policies := [("s1", "keep_forever")], expiries := [],
    files := [("data/media_cache/p1.mp4", 10)],
    retentionConfig := some "always_keep", capacityBytes := some 5,
    transcriptions := [], now := 1000 }

/-- Three entries totalling 20 bytes against an 8-byte budget, none expired,
distinct timestamps, no per-source policies. -/
def c2OkState : CacheState :=
  { entries := [⟨"s1", "best", "data/media_cache/p1.mp4", 10, 50⟩,
                ⟨"s2", "best", "data/media_cache/p2.mp4", 6, 60⟩,
                ⟨"s3", "best", "data/media_cache/p3.mp4", 4, 70⟩],
    policies := [], expiries := [],
    files := [("data/media_cache/p1.mp4", 10), ("data/media_cache/p2.mp4", 6),
              ("data/media_cache/p3.mp4", 4)],
    retentionConfig := some "always_keep", capacityBytes := some 8,
    transcriptions := [], now := 1000 }

/-- One custom-policy entry past expiry and one keep_forever entry past
expiry. -/
def c6State : CacheState :=
  { entries := [⟨"sc", "best", "data/media_cache/c.mp4", 3, 10⟩,
                ⟨"sk", "best", "data/media_cache/k.mp4", 4, 10⟩],
    policies := [("sc", "custom"), ("sk", "keep_forever")],
    expiries := [("sc", 500), ("sk", 500)],
    files := [("data/media_cache/c.mp4", 3), ("data/media_cache/k.mp4", 4)],
    retentionConfig := some "always_keep", capacityBytes := none,
    transcriptions := [], now := 1000 }

/-- A cache state holding a single fresh download, under a retention policy
string whose keep_days value does not parse. -/
def c10State : CacheState :=
  { entries := [], policies := [], expiries := [],
    files := [("tmp/dl.m4a", 9)],
    retentionConfig := some "keep_days:abc", capacityBytes := none,
    transcriptions := [], now := 100 }

/-- Like `c10State` but with a policy that keeps media. -/
def c8KeepState : CacheState :=
  { c10State with retentionConfig := some "always_keep" }

/-! ## Helper lemmas -/

/-- The priority-scan loop returns the first engine that is not skipped and is
available, i.e. a `find?` over the priority list. -/
lemma scanPriorityList_eq_find (s : ASRState) (active : Option String)
    (disabled : List String) (l : List String) :
    scanPriorityList s active disabled l =
      l.find? (fun e =>
        !(decide (e ∈ disabled) && decide (some e ≠ active)) && getAvail s e) := by
  induction l with
  | nil => rfl
  | cons e rest ih =>
    by_cases hskip : e ∈ disabled ∧ some e ≠ active
    · simp [scanPriorityList, List.find?_cons, hskip, hskip.1, hskip.2, ih]
    · by_cases hav : getAvail s e = true
      · rcases Decidable.not_and_iff_or_not.mp hskip with h | h
        · simp [scanPriorityList, List.find?_cons, hskip, h, hav]
        · have h' : some e = active := not_not.mp h
          simp [scanPriorityList, List.find?_cons, hskip, h', hav]
      · simp only [Bool.not_eq_true] at hav
        rcases Decidable.not_and_iff_or_not.mp hskip with h | h
        · simp [scanPriorityList, List.find?_cons, hskip, h, hav, ih]
        · have h' : some e = active := not_not.mp h
          simp [scanPriorityList, List.find?_cons, hskip, h', hav, ih]

/-! ## C1 — worker selection: priority scan and strict mode -/

/-- C1: with no caller override and strict mode off, `select_worker` scans
the priority list in order, skipping disabled engines unless the skipped
engine is the pinned active one, and returns the first available engine
(`firstAvailable`); with strict mode on and a pinned active engine that is
down, it raises instead of falling back. -/
theorem selectWorker_priority_and_strict :
    (∀ (s : ASRState) (e : String), s.config.strictMode = false →
        firstAvailable s = some e → selectWorker s none = .ok e)
    ∧ (∀ (s : ASRState) (a : String), s.config.strictMode = true →
        s.config.activeEngine = some a → getAvail s a = false →
        selectWorker s none =
          .error ("Strict Mode: Active engine \x27" ++ a ++ "\x27 is offline.")) := by
  constructor
  · intro s e hstrict hfind
    have hfind' : scanPriorityList s s.config.activeEngine s.config.disabledEngines
        s.config.priority = some e := by
      rw [scanPriorityList_eq_find]
      exact hfind
    simp [selectWorker, hstrict, selectFromPriority, hfind']
  · intro s a hstrict hactive havail
    simp [selectWorker, hstrict, hactive, checkAvailability, havail]

/-- Witness for C1 at the engines [A(down), B(up), C(up)]. -/
theorem selectWorker_priority_and_strict_witness :
    firstAvailable exASRState = some "B" ∧
    selectWorker exASRState none = .ok "B" ∧
    selectWorker exASRStrict none =
      .error "Strict Mode: Active engine \x27A\x27 is offline." :=
  ⟨by decide,
   selectWorker_priority_and_strict.1 exASRState "B" rfl (by decide),
   selectWorker_priority_and_strict.2 exASRStrict "A" rfl rfl (by decide)⟩

/-! ## C7 — download retry wrapper -/

/-- C7: the retry wrapper (3 attempts) retries only network-classified
errors, with exponentially growing delay; a cancellation error is re-raised
immediately at whatever attempt it occurs; a non-network error ends the
wrapper on its first occurrence with no retry; and the attempt cap is 3 even
for persistent network errors. -/
theorem retry_only_network_errors :
    (∀ (f : Nat → Attempt) (d : Nat) (m ty : String),
       f 0 = .exn m ty → isCancelSignal m ty = true →
       retryOnNetworkError f 3 d = (.raisedCancel m ty, []))
    ∧ (∀ (f : Nat → Attempt) (d : Nat) (m0 ty0 m1 ty1 : String),
       f 0 = .exn m0 ty0 → isCancelSignal m0 ty0 = false → isNetworkErr m0 = true →
       f 1 = .exn m1 ty1 → isCancelSignal m1 ty1 = true →
       retryOnNetworkError f 3 d = (.raisedCancel m1 ty1, [d]))
    ∧ (∀ (f : Nat → Attempt) (d : Nat) (m ty : String),
       f 0 = .exn m ty → isCancelSignal m ty = false → isNetworkErr m = false →
       retryOnNetworkError f 3 d = (.returnedNone, []))
    ∧ (∀ (f : Nat → Attempt) (d : Nat) (v m0 ty0 : String),
       f 0 = .exn m0 ty0 → isCancelSignal m0 ty0 = false → isNetworkErr m0 = true →
       f 1 = .ok v →
       retryOnNetworkError f 3 d = (.value v, [d]))
    ∧ (∀ (f : Nat → Attempt) (d : Nat) (v m0 ty0 m1 ty1 : String),
       f 0 = .exn m0 ty0 → isCancelSignal m0 ty0 = false → isNetworkErr m0 = true →
       f 1 = .exn m1 ty1 → isCancelSignal m1 ty1 = false → isNetworkErr m1 = true →
       f 2 = .ok v →
       retryOnNetworkError f 3 d = (.value v, [d, d * 2]))
    ∧ (∀ (f : Nat → Attempt) (d : Nat) (m0 ty0 m1 ty1 m2 ty2 : String),
       f 0 = .exn m0 ty0 → isCancelSignal m0 ty0 = false → isNetworkErr m0 = true →
       f 1 = .exn m1 ty1 → isCancelSignal m1 ty1 = false → isNetworkErr m1 = true →
       f 2 = .exn m2 ty2 → isCancelSignal m2 ty2 = false →
       retryOnNetworkError f 3 d = (.returnedNone, [d, d * 2])) := by
  refine ⟨?_, ?_, ?_, ?_, ?_, ?_⟩
  · intro f d m ty h0 hc
    simp [retryOnNetworkError, retryGo, h0, hc]
  · intro f d m0 ty0 m1 ty1 h0 hc0 hn0 h1 hc1
    simp [retryOnNetworkError, retryGo, h0, hc0, hn0, h1, hc1]
  · intro f d m ty h0 hc hn
    simp [retryOnNetworkError, retryGo, h0, hc, hn]
  · intro f d v m0 ty0 h0 hc0 hn0 h1
    simp [retryOnNetworkError, retryGo, h0, hc0, hn0, h1]
  · intro f d v m0 ty0 m1 ty1 h0 hc0 hn0 h1 hc1 hn1 h2
    have htwo : (2 : Nat) ^ 1 = 2 := rfl
    simp [retryOnNetworkError, retryGo, h0, hc0, hn0, h1, hc1, hn1, h2, htwo]
  · intro f d m0 ty0 m1 ty1 m2 ty2 h0 hc0 hn0 h1 hc1 hn1 h2 hc2
    have htwo : (2 : Nat) ^ 1 = 2 := rfl
    simp [retryOnNetworkError, retryGo, h0, hc0, hn0, h1, hc1, hn1, h2, hc2, htwo]

/-- Witness for C7: a cancellation error raised on the first attempt, and a
connection error retried once before success. -/
theorem retry_only_network_errors_witness :
    retryOnNetworkError
        (fun _ => .exn "Task 5 cancelled by user" "TaskCancelledException") 3 5 =
      (.raisedCancel "Task 5 cancelled by user" "TaskCancelledException", []) ∧
    retryOnNetworkError
        (fun n => if n = 0 then .exn "Connection reset by peer" "OSError"
                  else .ok "dl.m4a") 3 5 =
      (.value "dl.m4a", [5]) :=
  ⟨retry_only_network_errors.1 _ 5 _ _ rfl (by decide),
   retry_only_network_errors.2.2.2.1 _ 5 "dl.m4a" _ _ rfl (by decide) (by decide) rfl⟩

/-! ## C4 — pipeline failure and cancellation semantics -/

/-- C4: a non-cancellation exception marks the job failed and persists
"Error: \<message\>"; cancellation marks it cancelled and persists the
sentinel "Task Cancelled"; the cleanup stage runs identically on every
outcome. -/
theorem pipeline_failure_semantics :
    ∀ (st : CacheState) (audio : Option String) (itd uc : Bool)
      (tid : Nat) (src : String),
      (∀ msg, (runPipelineEnd (.failure msg) st audio itd uc tid src).1 =
        ⟨"failed", "Error: " ++ msg, true⟩) ∧
      (runPipelineEnd .cancelled st audio itd uc tid src).1 =
        ⟨"cancelled", "Task Cancelled", true⟩ ∧
      (∀ o, (runPipelineEnd o st audio itd uc tid src).2 =
        pipelineCleanup st audio itd uc tid src) :=
  fun _ _ _ _ _ _ => ⟨fun _ => rfl, rfl, fun _ => rfl⟩

/-! ## C8 — cleanup-stage effects -/

/-- C8: cleanup deletes a derived vocal-track temp file unconditionally,
hands a freshly downloaded (non-cached) file to `cleanup_or_delete` (which
caches it when the retention policy keeps media and deletes it otherwise),
and leaves the state untouched on a cache hit. -/
theorem pipeline_cleanup_semantics :
    ∀ (st : CacheState) (p : String) (audio : Option String) (uc : Bool)
      (tid : Nat) (src : String),
      (pipelineCleanup st (some p) true uc tid src =
        { st with files := fsRemove st.files p }) ∧
      (pipelineCleanup st audio false false tid src =
        cleanupOrDelete st audio tid (some src) "audio_only") ∧
      ((fsGet st.files p).isSome → shouldKeep st.retentionConfig = true →
        pipelineCleanup st (some p) false false tid src =
          (cacheFile st p tid (some src) "audio_only").1) ∧
      ((fsGet st.files p).isSome → shouldKeep st.retentionConfig = false →
        pipelineCleanup st (some p) false false tid src =
          { st with files := fsRemove st.files p }) ∧
      (pipelineCleanup st audio false true tid src = st) := by
  intro st p audio uc tid src
  refine ⟨rfl, rfl, ?_, ?_, rfl⟩
  · intro hex hkeep
    obtain ⟨v, hv⟩ := Option.isSome_iff_exists.mp hex
    simp [pipelineCleanup, cleanupOrDelete, hv, hkeep]
  · intro hex hkeep
    obtain ⟨v, hv⟩ := Option.isSome_iff_exists.mp hex
    simp [pipelineCleanup, cleanupOrDelete, hv, hkeep]

/-- Witness for C8: concrete states for the keep and delete cases. -/
theorem pipeline_cleanup_semantics_witness :
    (fsGet c10State.files "tmp/dl.m4a").isSome = true ∧
    shouldKeep c10State.retentionConfig = false ∧
    pipelineCleanup c10State (some "tmp/dl.m4a") false false 7 "SRC" =
      { c10State with files := fsRemove c10State.files "tmp/dl.m4a" } ∧
    shouldKeep c8KeepState.retentionConfig = true ∧
    pipelineCleanup c8KeepState (some "tmp/dl.m4a") false false 7 "SRC" =
      (cacheFile c8KeepState "tmp/dl.m4a" 7 (some "SRC") "audio_only").1 :=
  ⟨by decide, by decide,
   (pipeline_cleanup_semantics c10State "tmp/dl.m4a" none false 7 "SRC").2.2.2.1
     (by decide) (by decide),
   by decide,
   (pipeline_cleanup_semantics c8KeepState "tmp/dl.m4a" none false 7 "SRC").2.2.1
     (by decide) (by decide)⟩

/-! ## C10 — unparseable keep_days value degrades to delete_after_asr -/

lemma charsBeginWith_append (pre rest : List Char) :
    charsBeginWith (pre ++ rest) pre = true := by
  induction pre with
  | nil => cases rest <;> rfl
  | cons c cs ih => simp [charsBeginWith, ih]

lemma splitOnChar_append_sep (sep : Char) (pre rest : List Char)
    (h : ∀ c ∈ pre, ¬(c = sep)) :
    splitOnChar sep (pre ++ sep :: rest) = pre :: splitOnChar sep rest := by
  induction pre with
  | nil => simp [splitOnChar]
  | cons c cs ih =>
    have hc : (c == sep) = false := by
      simpa using h c (List.mem_cons_self c cs)
    have ih' := ih (fun x hx => h x (List.mem_cons_of_mem c hx))
    simp [splitOnChar, hc, ih']

lemma splitOnChar_no_sep (sep : Char) (l : List Char) (h : ∀ c ∈ l, ¬(c = sep)) :
    splitOnChar sep l = [l] := by
  induction l with
  | nil => rfl
  | cons c cs ih =>
    have hc : (c == sep) = false := by
      simpa using h c (List.mem_cons_self c cs)
    have ih' := ih (fun x hx => h x (List.mem_cons_of_mem c hx))
    simp [splitOnChar, hc, ih']

/-- C10: a stored policy string "keep_days:N" whose N does not parse as an
integer makes `get_retention_policy` return ("delete_after_asr", 0), so
`should_keep` is false and `cleanup_or_delete` deletes the fresh media file
instead of caching it. -/
theorem retention_parse_failure_deletes :
    ∀ (n : String) (st : CacheState) (p : String) (tid : Nat)
      (src : Option String) (q : String),
      (∀ c ∈ n.data, c ≠ ':') → parsePyInt n = none →
      st.retentionConfig = some ("keep_days:" ++ n) →
      getRetentionPolicy (some ("keep_days:" ++ n)) = ("delete_after_asr", 0) ∧
      shouldKeep st.retentionConfig = false ∧
      ((fsGet st.files p).isSome →
        cleanupOrDelete st (some p) tid src q =
          { st with files := fsRemove st.files p }) := by
  intro n st p tid src q hcolon hparse hcfg
  have hdata : ("keep_days:" ++ n).data = "keep_days".data ++ ':' :: n.data := by
    rw [String.data_append]
    have : "keep_days:".data = "keep_days".data ++ [':'] := by decide
    rw [this, List.append_assoc]
    rfl
  have hstarts : strStartsWith ("keep_days:" ++ n) "keep_days:" = true := by
    unfold strStartsWith
    rw [String.data_append]
    exact charsBeginWith_append _ _
  have hsplit : pySplitColon ("keep_days:" ++ n) = ["keep_days", n] := by
    unfold pySplitColon
    rw [hdata, splitOnChar_append_sep _ _ _ (by decide),
      splitOnChar_no_sep _ _ hcolon]
    rfl
  have hpol : getRetentionPolicy (some ("keep_days:" ++ n)) =
      ("delete_after_asr", 0) := by
    simp [getRetentionPolicy, hstarts, hsplit, hparse]
  refine ⟨hpol, ?_, ?_⟩
  · simp [shouldKeep, hcfg, hpol]
  · intro hex
    obtain ⟨v, hv⟩ := Option.isSome_iff_exists.mp hex
    have hsk : shouldKeep st.retentionConfig = false := by
      simp [shouldKeep, hcfg, hpol]
    simp [cleanupOrDelete, hv, hsk]

/-- Witness for C10 at the policy string "keep_days:abc". -/
theorem retention_parse_failure_deletes_witness :
    parsePyInt "abc" = none ∧
    getRetentionPolicy (some ("keep_days:" ++ "abc")) = ("delete_after_asr", 0) ∧
    shouldKeep c10State.retentionConfig = false ∧
    cleanupOrDelete c10State (some "tmp/dl.m4a") 7 (some "SRC") "audio_only" =
      { c10State with files := fsRemove c10State.files "tmp/dl.m4a" } := by
  have h := retention_parse_failure_deletes "abc" c10State "tmp/dl.m4a" 7
    (some "SRC") "audio_only" (by decide) (by decide) (by decide)
  exact ⟨by decide, h.1, h.2.1, h.2.2 (by decide)⟩

/-! ## C6 — GC candidates: expired custom policies in, keep_forever out -/

/-- C6: an entry whose source has a custom policy with an expiry in the past
is always a GC candidate, and an entry whose source is keep_forever never is,
regardless of any expiry timestamp. -/
theorem gc_candidates_policy :
    (∀ (s : CacheState) (e : CacheEntry) (t : Nat), e ∈ s.entries →
       metaPolicy s e.sourceId = some "custom" →
       metaExpires s e.sourceId = some t → t < s.now →
       e ∈ getGcCandidates s) ∧
    (∀ (s : CacheState) (e : CacheEntry),
       metaPolicy s e.sourceId = some "keep_forever" →
       e ∉ getGcCandidates s) := by
  constructor
  · intro s e t hmem hpol hexp hlt
    refine List.mem_filter.mpr ⟨hmem, ?_⟩
    simp [isGcCandidate, hpol, hexp, hlt]
  · intro s e hpol hmem
    have := (List.mem_filter.mp hmem).2
    simp [isGcCandidate, hpol] at this

/-- Witness for C6: a concrete expired custom entry and a keep_forever entry
with the same past expiry. -/
theorem gc_candidates_policy_witness :
    (⟨"sc", "best", "data/media_cache/c.mp4", 3, 10⟩ : CacheEntry) ∈
      getGcCandidates c6State ∧
    (⟨"sk", "best", "data/media_cache/k.mp4", 4, 10⟩ : CacheEntry) ∉
      getGcCandidates c6State :=
  ⟨gc_candidates_policy.1 c6State _ 500 (by decide) (by decide) (by decide)
     (by decide),
   gc_candidates_policy.2 c6State _ (by decide)⟩

/-! ## C5 — checkCancel after requestCancel -/

lemma evictLoop_tasks_cases (ids : List Int) (tasks : Int → Option TaskRec)
    (k : Int) :
    (evictLoop ids tasks).2 k = none ∨ (evictLoop ids tasks).2 k = tasks k := by
  induction ids generalizing tasks with
  | nil => exact Or.inr rfl
  | cons old rest ih =>
    by_cases hlen : (old :: rest).length > MAX_HISTORY
    · have := ih (fun x => if x = old then none else tasks x)
      rw [evictLoop, if_pos hlen] at *
      rcases this with h | h
      · exact Or.inl h
      · by_cases hk : k = old
        · exact Or.inl (by simpa [hk] using h)
        · exact Or.inr (by simpa [hk] using h)
    · rw [evictLoop, if_neg hlen]
      exact Or.inr rfl

lemma applyOp_preserves_cancelFlag (s : TMState) (id : Int) (op : RegOp)
    (hop : op ≠ RegOp.start id) (h : cancelFlagOk s id) :
    cancelFlagOk (applyOp s op) id := by
  cases op with
  | start j =>
    have hj : j ≠ id := fun he => hop (by rw [he])
    intro r hr
    simp only [applyOp, startTask] at hr
    rw [if_neg (fun he : id = j => hj he.symm)] at hr
    exact h r hr
  | update j pr m =>
    intro r hr
    simp only [applyOp, updateProgress] at hr
    cases hj : s.tasks j with
    | none => rw [hj] at hr; exact h r hr
    | some r0 =>
      rw [hj] at hr
      simp only at hr
      by_cases hk : id = j
      · rw [if_pos hk] at hr
        have := h r0 (hk ▸ hj)
        cases hr
        simpa using this
      · rw [if_neg hk] at hr
        exact h r hr
  | cancel j =>
    intro r hr
    simp only [applyOp, cancelTask] at hr
    cases hj : s.tasks j with
    | none => rw [hj] at hr; exact h r hr
    | some r0 =>
      rw [hj] at hr
      simp only at hr
      by_cases hk : id = j
      · rw [if_pos hk] at hr
        cases hr
        rfl
      · rw [if_neg hk] at hr
        exact h r hr
  | finish j =>
    intro r hr
    simp only [applyOp, finishTask] at hr
    cases hj : s.tasks j with
    | none => rw [hj] at hr; exact h r hr
    | some r0 =>
      rw [hj] at hr
      simp only at hr
      rcases evictLoop_tasks_cases (s.finishedIds ++ [j])
          (fun k => if k = j then
            some (if r0.status = "cancelled" ∨ r0.status = "failed" then r0
                  else { r0 with status := "completed", progress := 100 })
            else s.tasks k) id with hcase | hcase
      · rw [hcase] at hr; cases hr
      · rw [hcase] at hr
        by_cases hk : id = j
        · rw [if_pos hk] at hr
          have := h r0 (hk ▸ hj)
          cases hr
          by_cases hterm : r0.status = "cancelled" ∨ r0.status = "failed" <;>
            simp [hterm, this]
        · rw [if_neg hk] at hr
          exact h r hr
  | remove j =>
    intro r hr
    simp only [applyOp, removeTask] at hr
    by_cases hk : id = j
    · rw [if_pos hk] at hr; cases hr
    · rw [if_neg hk] at hr
      exact h r hr

lemma applyOps_preserves_cancelFlag (s : TMState) (id : Int) (ops : List RegOp)
    (hops : ∀ op ∈ ops, op ≠ RegOp.start id) (h : cancelFlagOk s id) :
    cancelFlagOk (applyOps s ops) id := by
  induction ops generalizing s with
  | nil => exact h
  | cons op rest ih =>
    exact ih (applyOp s op) (fun o ho => hops o (List.mem_cons_of_mem op ho))
      (applyOp_preserves_cancelFlag s id op (hops op (List.mem_cons_self op rest)) h)

/-- C5 (amended): after `requestCancel(id)` on a registered job, any
`checkCancel(id)` raises as long as the record has not been evicted from the
bounded finished-task history, explicitly removed, or re-registered — status
transitions in the surviving record (progress updates, further cancels,
finishing) never clear the flag. -/
theorem checkCancel_raises_while_registered :
    ∀ (s0 : TMState) (id : Int) (ops : List RegOp),
      s0.tasks id ≠ none →
      (∀ op ∈ ops, op ≠ RegOp.start id) →
      (applyOps (cancelTask s0 id).2 ops).tasks id ≠ none →
      checkCancel (applyOps (cancelTask s0 id).2 ops) id =
        .error ("Task " ++ toString id ++ " cancelled by user") := by
  intro s0 id ops hreg hops hreg'
  obtain ⟨r0, hr0⟩ := Option.ne_none_iff_exists'.mp hreg
  have hflag : cancelFlagOk (cancelTask s0 id).2 id := by
    intro r hr
    have hcan : ((cancelTask s0 id).2).tasks id =
        some { r0 with cancelEvent := true, status := "cancelling" } := by
      simp [cancelTask, hr0]
    rw [hcan] at hr
    cases hr
    rfl
  have hflag' := applyOps_preserves_cancelFlag _ id ops hops hflag
  obtain ⟨r, hr⟩ := Option.ne_none_iff_exists'.mp hreg'
  have hev := hflag' r hr
  simp [checkCancel, isCancelled, hr, hev]

/-- Witness for C5 (amended): concrete cancel followed by a progress update
and a finish, with the record still registered. -/
theorem checkCancel_raises_while_registered_witness :
    (applyOps (cancelTask (startTask initTM 1) 1).2
        [RegOp.update 1 42 (some "asr"), RegOp.finish 1]).tasks 1 ≠ none ∧
    checkCancel (applyOps (cancelTask (startTask initTM 1) 1).2
        [RegOp.update 1 42 (some "asr"), RegOp.finish 1]) 1 =
      .error ("Task " ++ toString (1 : Int) ++ " cancelled by user") :=
  ⟨by decide,
   checkCancel_raises_while_registered (startTask initTM 1) 1
     [RegOp.update 1 42 (some "asr"), RegOp.finish 1]
     (by decide) (by decide) (by decide)⟩

/-- Counterexample to C5 as stated: after requestCancel, twenty-one finish
calls overflow the finished-history FIFO, the record is evicted, and a
subsequent checkCancel no longer raises. -/
theorem checkCancel_eviction_cex :
    isCancelled (applyOps initTM [RegOp.start 1, RegOp.cancel 1]) 1 = true ∧
    checkCancel (applyOps initTM
        ([RegOp.start 1, RegOp.cancel 1] ++
          List.replicate 21 (RegOp.finish 1))) 1 = Except.ok () := by
  exact ⟨by decide, rfl⟩

/-! ## C9 — finishing a cancel-requested job reports completed -/

lemma evictLoop_keeps_last (l : List Int) (id : Int)
    (tasks : Int → Option TaskRec) (hlen : l.length ≤ MAX_HISTORY)
    (hid : id ∉ l) :
    (evictLoop (l ++ [id]) tasks).2 id = tasks id := by
  induction l generalizing tasks with
  | nil =>
    rw [List.nil_append, evictLoop]
    norm_num [MAX_HISTORY]
  | cons h t ih =>
    rw [List.cons_append, evictLoop]
    by_cases hlong : (h :: (t ++ [id])).length > MAX_HISTORY
    · rw [if_pos hlong]
      have hne : id ≠ h := fun he => hid (he ▸ List.mem_cons_self h t)
      have := ih (fun k => if k = h then none else tasks k)
        (Nat.le_of_succ_le (by simpa using hlen))
        (fun hmem => hid (List.mem_cons_of_mem h hmem))
      simpa [hne] using this
    · rw [if_neg hlong]

/-- Counterexample to C9 as stated: job ids are reused, and `start_task`
never removes a stale id from the finished deque. With job 1 already at the
head of a full 20-item finished history, re-registering it, cancelling it and
finishing it makes `finish_task` evict the freshly finished record itself —
the registry then reports nothing, not "completed" at progress 100. -/
theorem finish_after_cancel_eviction_cex :
    (applyOps initTM (startFinishOps 20)).finishedIds.length = MAX_HISTORY ∧
    isCancelled
      (cancelTask (startTask (applyOps initTM (startFinishOps 20)) 1) 1).2 1 =
      true ∧
    (finishTask
      (cancelTask (startTask (applyOps initTM (startFinishOps 20)) 1) 1).2
      1).tasks 1 = none :=
  ⟨by decide, by decide, by decide⟩

/-- C9 (amended): `finish_task` preserves only the terminal statuses
"cancelled" and "failed"; no registry mutation ever produces those statuses
(`cancel_task` writes "cancelling"); hence a job that is cancel-requested and
then finished is reported "completed" at progress 100 with its cancellation
flag still set, provided the job id is not already sitting in the bounded
finished-task history — a stale reused id heading a full history makes
`finish_task` evict the fresh record instead. -/
theorem finish_after_cancel_reports_completed :
    (∀ (s : TMState) (op : RegOp) (id : Int) (r : TaskRec),
       (applyOp s op).tasks id = some r →
       r.status = "cancelled" ∨ r.status = "failed" →
       ∃ r0, s.tasks id = some r0 ∧ r0.status = r.status) ∧
    (∀ (s : TMState) (id : Int) (r : TaskRec), s.tasks id = some r →
       ((cancelTask s id).2).tasks id =
         some { r with status := "cancelling", cancelEvent := true }) ∧
    (∀ (s : TMState) (id : Int),
       s.finishedIds.length ≤ MAX_HISTORY → id ∉ s.finishedIds →
       (finishTask (cancelTask (startTask s id) id).2 id).tasks id =
         some ⟨"completed", 100, "Starting...", true⟩) := by
  refine ⟨?_, ?_, ?_⟩
  · intro s op id r hr hterm
    cases op with
    | start j =>
      simp only [applyOp, startTask] at hr
      by_cases hk : id = j
      · rw [if_pos hk] at hr
        cases hr
        rcases hterm with h | h <;> simp at h
      · rw [if_neg hk] at hr
        exact ⟨r, hr, rfl⟩
    | update j pr m =>
      simp only [applyOp, updateProgress] at hr
      cases hj : s.tasks j with
      | none => rw [hj] at hr; exact ⟨r, hr, rfl⟩
      | some r0 =>
        rw [hj] at hr
        simp only at hr
        by_cases hk : id = j
        · rw [if_pos hk] at hr
          cases hr
          exact ⟨r0, hk ▸ hj, rfl⟩
        · rw [if_neg hk] at hr
          exact ⟨r, hr, rfl⟩
    | cancel j =>
      simp only [applyOp, cancelTask] at hr
      cases hj : s.tasks j with
      | none => rw [hj] at hr; exact ⟨r, hr, rfl⟩
      | some r0 =>
        rw [hj] at hr
        simp only at hr
        by_cases hk : id = j
        · rw [if_pos hk] at hr
          cases hr
          rcases hterm with h | h <;> simp at h
        · rw [if_neg hk] at hr
          exact ⟨r, hr, rfl⟩
    | finish j =>
      simp only [applyOp, finishTask] at hr
      cases hj : s.tasks j with
      | none => rw [hj] at hr; exact ⟨r, hr, rfl⟩
      | some r0 =>
        rw [hj] at hr
        simp only at hr
        rcases evictLoop_tasks_cases (s.finishedIds ++ [j])
            (fun k => if k = j then
              some (if r0.status = "cancelled" ∨ r0.status = "failed" then r0
                    else { r0 with status := "completed", progress := 100 })
              else s.tasks k) id with hcase | hcase
        · rw [hcase] at hr; cases hr
        · rw [hcase] at hr
          by_cases hk : id = j
          · rw [if_pos hk] at hr
            by_cases hterm0 : r0.status = "cancelled" ∨ r0.status = "failed"
            · rw [if_pos hterm0] at hr
              have hinj := Option.some.inj hr
              exact ⟨r0, hk ▸ hj, by rw [← hinj]⟩
            · rw [if_neg hterm0] at hr
              cases hr
              rcases hterm with h | h <;> simp at h
          · rw [if_neg hk] at hr
            exact ⟨r, hr, rfl⟩
    | remove j =>
      simp only [applyOp, removeTask] at hr
      by_cases hk : id = j
      · rw [if_pos hk] at hr; cases hr
      · rw [if_neg hk] at hr
        exact ⟨r, hr, rfl⟩
  · intro s id r hr
    simp [cancelTask, hr]
  · intro s id hlen hid
    have h1 : (startTask s id).tasks id =
        some ⟨"processing", 0, "Starting...", false⟩ := by
      simp [startTask]
    have h2 : ((cancelTask (startTask s id) id).2).tasks id =
        some ⟨"cancelling", 0, "Starting...", true⟩ := by
      simp [cancelTask, h1]
    have hfin : (cancelTask (startTask s id) id).2.finishedIds = s.finishedIds := by
      simp [cancelTask, h1, startTask]
    rw [finishTask, h2]
    simp only
    rw [hfin]
    have := evictLoop_keeps_last s.finishedIds id
      (fun k => if k = id then
        some (if ("cancelling" = "cancelled" ∨ "cancelling" = "failed") then
                (⟨"cancelling", 0, "Starting...", true⟩ : TaskRec)
              else { status := "completed", progress := 100,
                     message := "Starting...", cancelEvent := true })
        else (cancelTask (startTask s id) id).2.tasks k) hlen hid
    simpa using this

/-- Witness for C9 on the empty registry. -/
theorem finish_after_cancel_reports_completed_witness :
    (finishTask (cancelTask (startTask initTM 5) 5).2 5).tasks 5 =
      some ⟨"completed", 100, "Starting...", true⟩ :=
  finish_after_cancel_reports_completed.2.2 initTM 5 (by decide) (by decide)

/-! ## C3 — idempotent cache fill -/

lemma fsRemove_cons (k : String) (v : Nat) (rest : List (String × Nat))
    (p : String) :
    fsRemove ((k, v) :: rest) p =
      if k = p then fsRemove rest p else (k, v) :: fsRemove rest p := by
  by_cases hk : k = p <;> simp [fsRemove, List.filter_cons, hk]

lemma fsGet_fsRemove_ne (files : List (String × Nat)) (p q : String)
    (h : q ≠ p) : fsGet (fsRemove files p) q = fsGet files q := by
  induction files with
  | nil => rfl
  | cons f rest ih =>
    obtain ⟨k, v⟩ := f
    by_cases hk : k = p
    · rw [fsRemove_cons, if_pos hk, ih,
        show fsGet ((k, v) :: rest) q = if k = q then some v else fsGet rest q
          from rfl, if_neg (fun he : k = q => h (he ▸ hk))]
    · rw [fsRemove_cons, if_neg hk,
        show fsGet ((k, v) :: fsRemove rest p) q =
          if k = q then some v else fsGet (fsRemove rest p) q from rfl,
        show fsGet ((k, v) :: rest) q = if k = q then some v else fsGet rest q
          from rfl, ih]

lemma resetExpiredPolicy_files (st : CacheState) (sid : String) :
    (resetExpiredPolicy st sid).files = st.files := by
  unfold resetExpiredPolicy
  split
  · split
    · split <;> rfl
    · rfl
  · rfl

lemma resetExpiredPolicy_entries (st : CacheState) (sid : String) :
    (resetExpiredPolicy st sid).entries = st.entries := by
  unfold resetExpiredPolicy
  split
  · split
    · split <;> rfl
    · rfl
  · rfl

lemma findEntry_upsert (l : List CacheEntry) (sid q p : String) (sz t : Nat) :
    findEntry (upsertEntry l sid q p sz t) sid q =
      some ⟨sid, q, p, sz, t⟩ := by
  induction l with
  | nil => simp [upsertEntry, findEntry]
  | cons e rest ih =>
    by_cases hk : e.sourceId = sid ∧ e.quality = q
    · simp [upsertEntry, hk, findEntry]
    · have hp : (e.sourceId == sid && e.quality == q) = false := by
        rcases Decidable.not_and_iff_or_not.mp hk with h | h <;> simp [h]
      simp only [upsertEntry, if_neg hk]
      simp only [findEntry, List.find?_cons, hp]
      exact ih

/-- The derived target name depends on the temp path only through its
extension. -/
lemma cacheTargetName_ext_congr (src q t1 t2 : String)
    (h : pyExt t2 = pyExt t1) :
    cacheTargetName src q t2 = cacheTargetName src q t1 := by
  unfold cacheTargetName
  rw [h]

lemma resetExpiredPolicy_now (st : CacheState) (sid : String) :
    (resetExpiredPolicy st sid).now = st.now := by
  unfold resetExpiredPolicy
  split
  · split
    · split <;> rfl
    · rfl
  · rfl

/-- Embeds `cache_file` on an existing temp file when the target already
materialized: the temp file is discarded and the entry re-recorded with the
target's current size. -/
lemma cacheFile_dedup (st : CacheState) (temp : String) (tid : Nat)
    (src q : String) (v : Nat) (hv : fsGet st.files temp = some v)
    (hded : (fsGet st.files
        ("data/media_cache/" ++ cacheTargetName src q temp)).isSome = true) :
    (cacheFile st temp tid (some src) q).1.files = fsRemove st.files temp ∧
    (cacheFile st temp tid (some src) q).1.entries =
      upsertEntry st.entries src q
        ("data/media_cache/" ++ cacheTargetName src q temp)
        ((fsGet (fsRemove st.files temp)
            ("data/media_cache/" ++ cacheTargetName src q temp)).getD 0)
        st.now ∧
    (cacheFile st temp tid (some src) q).1.now = st.now := by
  refine ⟨?_, ?_, ?_⟩ <;>
    simp [cacheFile, hv, hded, resetExpiredPolicy_files, resetExpiredPolicy_entries,
      resetExpiredPolicy_now]

/-- Embeds `cache_file` on an existing temp file when the target is absent: the temp
file is moved into place and the entry recorded with the temp file's size. -/
lemma cacheFile_move (st : CacheState) (temp : String) (tid : Nat)
    (src q : String) (v : Nat) (hv : fsGet st.files temp = some v)
    (hmove : (fsGet st.files
        ("data/media_cache/" ++ cacheTargetName src q temp)).isSome = false) :
    (cacheFile st temp tid (some src) q).1.files =
      ("data/media_cache/" ++ cacheTargetName src q temp, v) ::
        fsRemove (fsRemove st.files temp)
          ("data/media_cache/" ++ cacheTargetName src q temp) ∧
    (cacheFile st temp tid (some src) q).1.entries =
      upsertEntry st.entries src q
        ("data/media_cache/" ++ cacheTargetName src q temp) v st.now ∧
    (cacheFile st temp tid (some src) q).1.now = st.now := by
  have hv' : assocGet st.files temp = some v := hv
  have hmove' : (assocGet st.files
      ("data/media_cache/" ++ cacheTargetName src q temp)).isSome = false := hmove
  refine ⟨?_, ?_, ?_⟩ <;>
    simp [cacheFile, fsGet, assocGet, hv', hmove', resetExpiredPolicy_files,
      resetExpiredPolicy_entries, resetExpiredPolicy_now]

/-- C3 (amended): calling `cache_file` twice with the same (source, quality)
and two different temp files of equal filename extension (temp paths outside
the cache directory) leaves a single artifact — the second call only discards
its temp input — and the entry's recorded path and size are unchanged by the
second call. -/
theorem cacheFile_second_call_dedup (st : CacheState) (t1 t2 src q : String)
    (tid1 tid2 : Nat)
    (h1 : (fsGet st.files t1).isSome = true)
    (h2 : (fsGet st.files t2).isSome = true)
    (hne : t2 ≠ t1)
    (ht1 : t1 ≠ "data/media_cache/" ++ cacheTargetName src q t1)
    (ht2 : t2 ≠ "data/media_cache/" ++ cacheTargetName src q t1)
    (hext : pyExt t2 = pyExt t1) :
    (cacheFile (cacheFile st t1 tid1 (some src) q).1 t2 tid2 (some src) q).1.files =
      fsRemove (cacheFile st t1 tid1 (some src) q).1.files t2 ∧
    (findEntry (cacheFile (cacheFile st t1 tid1 (some src) q).1 t2 tid2
          (some src) q).1.entries src q).map (fun e => (e.mediaPath, e.fileSize)) =
      (findEntry (cacheFile st t1 tid1 (some src) q).1.entries src q).map
        (fun e => (e.mediaPath, e.fileSize)) := by
  obtain ⟨v1, hv1⟩ := Option.isSome_iff_exists.mp h1
  obtain ⟨v2, hv2⟩ := Option.isSome_iff_exists.mp h2
  have htn2 : cacheTargetName src q t2 = cacheTargetName src q t1 :=
    cacheTargetName_ext_congr src q t1 t2 hext
  -- facts about the state after the first call, uniform over its two branches
  have hcall1 : fsGet (cacheFile st t1 tid1 (some src) q).1.files t2 = some v2 ∧
      (fsGet (cacheFile st t1 tid1 (some src) q).1.files
        ("data/media_cache/" ++ cacheTargetName src q t1)).isSome = true ∧
      (cacheFile st t1 tid1 (some src) q).1.entries =
        upsertEntry st.entries src q
          ("data/media_cache/" ++ cacheTargetName src q t1)
          ((fsGet (cacheFile st t1 tid1 (some src) q).1.files
              ("data/media_cache/" ++ cacheTargetName src q t1)).getD 0)
          st.now := by
    by_cases hded : (fsGet st.files
        ("data/media_cache/" ++ cacheTargetName src q t1)).isSome = true
    · obtain ⟨hfiles, hentries, -⟩ := cacheFile_dedup st t1 tid1 src q v1 hv1 hded
      have hget : fsGet (cacheFile st t1 tid1 (some src) q).1.files
          ("data/media_cache/" ++ cacheTargetName src q t1) =
          fsGet st.files ("data/media_cache/" ++ cacheTargetName src q t1) := by
        rw [hfiles, fsGet_fsRemove_ne _ _ _ (Ne.symm ht1)]
      refine ⟨?_, ?_, ?_⟩
      · rw [hfiles, fsGet_fsRemove_ne _ _ _ hne, hv2]
      · rw [hget]; exact hded
      · rw [hentries, hfiles]
    · have hmv : (fsGet st.files
          ("data/media_cache/" ++ cacheTargetName src q t1)).isSome = false := by
        simpa using hded
      obtain ⟨hfiles, hentries, -⟩ := cacheFile_move st t1 tid1 src q v1 hv1 hmv
      have hget : fsGet (cacheFile st t1 tid1 (some src) q).1.files
          ("data/media_cache/" ++ cacheTargetName src q t1) = some v1 := by
        rw [hfiles]
        simp [fsGet, assocGet]
      refine ⟨?_, ?_, ?_⟩
      · rw [hfiles,
          show fsGet (("data/media_cache/" ++ cacheTargetName src q t1, v1) ::
              fsRemove (fsRemove st.files t1)
                ("data/media_cache/" ++ cacheTargetName src q t1)) t2 =
            if ("data/media_cache/" ++ cacheTargetName src q t1) = t2 then some v1
            else fsGet (fsRemove (fsRemove st.files t1)
              ("data/media_cache/" ++ cacheTargetName src q t1)) t2 from rfl,
          if_neg (fun he => ht2 he.symm),
          fsGet_fsRemove_ne _ _ _ ht2, fsGet_fsRemove_ne _ _ _ hne, hv2]
      · rw [hget]; rfl
      · rw [hentries, hget]
        rfl
  obtain ⟨hs1t2, hs1tgt, hs1entries⟩ := hcall1
  -- the second call hits the dedup branch on the same target
  have hded2 : (fsGet (cacheFile st t1 tid1 (some src) q).1.files
      ("data/media_cache/" ++ cacheTargetName src q t2)).isSome = true := by
    rw [htn2]; exact hs1tgt
  obtain ⟨hfiles2, hentries2, -⟩ :=
    cacheFile_dedup (cacheFile st t1 tid1 (some src) q).1 t2 tid2 src q v2
      hs1t2 hded2
  rw [htn2] at hentries2
  refine ⟨hfiles2, ?_⟩
  have hsz2 : fsGet (fsRemove (cacheFile st t1 tid1 (some src) q).1.files t2)
      ("data/media_cache/" ++ cacheTargetName src q t1) =
      fsGet (cacheFile st t1 tid1 (some src) q).1.files
        ("data/media_cache/" ++ cacheTargetName src q t1) :=
    fsGet_fsRemove_ne _ _ _ (Ne.symm ht2)
  rw [hentries2, hsz2, hs1entries, findEntry_upsert, findEntry_upsert]
  simp

/-- Witness for C3 (amended): two temp files with the same ".mp3" extension. -/
theorem cacheFile_second_call_dedup_witness :
    (cacheFile (cacheFile c3SameExtState "tmp/a.mp3" 1 (some "SRC") "best").1
        "tmp/b.mp3" 2 (some "SRC") "best").1.files =
      fsRemove (cacheFile c3SameExtState "tmp/a.mp3" 1 (some "SRC") "best").1.files
        "tmp/b.mp3" ∧
    (findEntry (cacheFile (cacheFile c3SameExtState "tmp/a.mp3" 1 (some "SRC") "best").1
          "tmp/b.mp3" 2 (some "SRC") "best").1.entries "SRC" "best").map
        (fun e => (e.mediaPath, e.fileSize)) =
      (findEntry (cacheFile c3SameExtState "tmp/a.mp3" 1 (some "SRC") "best").1.entries
          "SRC" "best").map (fun e => (e.mediaPath, e.fileSize)) :=
  cacheFile_second_call_dedup c3SameExtState "tmp/a.mp3" "tmp/b.mp3" "SRC" "best"
    1 2 (by decide) (by decide) (by decide) (by decide) (by decide) (by decide)

/-- Counterexample to C3 as stated: the same source and quality cached from
temp files with different extensions yields two on-disk artifacts, and the
entry's recorded path and size change. -/
theorem cacheFile_two_artifacts_cex :
    fsGet (cacheFile (cacheFile c3CexState "tmp/a.mp3" 1 (some "SRC") "best").1
        "tmp/b.mp4" 1 (some "SRC") "best").1.files
        "data/media_cache/md5-SRC.mp3" = some 5 ∧
    fsGet (cacheFile (cacheFile c3CexState "tmp/a.mp3" 1 (some "SRC") "best").1
        "tmp/b.mp4" 1 (some "SRC") "best").1.files
        "data/media_cache/md5-SRC.mp4" = some 7 ∧
    (findEntry (cacheFile c3CexState "tmp/a.mp3" 1 (some "SRC") "best").1.entries
        "SRC" "best").map (fun e => (e.mediaPath, e.fileSize)) =
      some ("data/media_cache/md5-SRC.mp3", 5) ∧
    (findEntry (cacheFile (cacheFile c3CexState "tmp/a.mp3" 1 (some "SRC") "best").1
        "tmp/b.mp4" 1 (some "SRC") "best").1.entries
        "SRC" "best").map (fun e => (e.mediaPath, e.fileSize)) =
      some ("data/media_cache/md5-SRC.mp4", 7) :=
  ⟨by decide, by decide, by decide, by decide⟩

/-! ## C2 — capacity eviction: oldest-first, keep_forever exempt -/

lemma fsGet_map_entries (l : List CacheEntry) (e : CacheEntry)
    (hp : (l.map (fun x => x.mediaPath)).Nodup) (he : e ∈ l) :
    fsGet (l.map (fun x => (x.mediaPath, x.fileSize))) e.mediaPath =
      some e.fileSize := by
  induction l with
  | nil => cases he
  | cons a t ih =>
    rcases List.mem_cons.mp he with rfl | hmem
    · simp [fsGet, assocGet]
    · have hne : a.mediaPath ≠ e.mediaPath := by
        intro hcontra
        have hm : e.mediaPath ∈ t.map (fun x => x.mediaPath) :=
          List.mem_map_of_mem _ hmem
        rw [← hcontra] at hm
        exact (List.nodup_cons.mp hp).1 hm
      simp only [List.map_cons, fsGet, assocGet, if_neg hne]
      exact ih (List.nodup_cons.mp hp).2 hmem

lemma gcDeleteEntry_entries_eq (st : CacheState) (e : CacheEntry)
    (hk : (st.entries.map (fun x => (x.sourceId, x.quality))).Nodup)
    (he : e ∈ st.entries) :
    (gcDeleteEntry st e.sourceId e.quality).entries =
      st.entries.filter (fun x => decide (x ≠ e)) := by
  show st.entries.filter _ = _
  apply List.filter_congr
  intro x hx
  by_cases hxe : x = e
  · subst hxe
    simp
  · have hnk : ¬(x.sourceId = e.sourceId ∧ x.quality = e.quality) := by
      rintro ⟨h1, h2⟩
      exact hxe (List.inj_on_of_nodup_map hk hx he (by rw [h1, h2]))
    simp [hnk, hxe]

lemma fsRemove_map_entries (l : List CacheEntry) (p : String) :
    fsRemove (l.map (fun x => (x.mediaPath, x.fileSize))) p =
      (l.filter (fun x => decide (x.mediaPath ≠ p))).map
        (fun x => (x.mediaPath, x.fileSize)) := by
  induction l with
  | nil => rfl
  | cons a t ih =>
    by_cases hp : a.mediaPath = p
    · simp only [List.map_cons, fsRemove_cons, if_pos hp, List.filter_cons]
      simp [hp, ih]
    · simp only [List.map_cons, fsRemove_cons, if_neg hp, List.filter_cons]
      simp [hp, ih]

lemma fsRemove_map_filter_ne (l : List CacheEntry) (e : CacheEntry)
    (hp : (l.map (fun x => x.mediaPath)).Nodup) (he : e ∈ l) :
    fsRemove (l.map (fun x => (x.mediaPath, x.fileSize))) e.mediaPath =
      (l.filter (fun x => decide (x ≠ e))).map
        (fun x => (x.mediaPath, x.fileSize)) := by
  rw [fsRemove_map_entries]
  congr 1
  apply List.filter_congr
  intro x hx
  by_cases hxe : x = e
  · subst hxe
    simp
  · have hpath : x.mediaPath ≠ e.mediaPath :=
      fun hcontra => hxe (List.inj_on_of_nodup_map hp hx he hcontra)
    simp [hpath, hxe]

lemma sum_sizes_filter_ne (l : List CacheEntry) (e : CacheEntry)
    (hl : l.Nodup) (he : e ∈ l) :
    ((l.filter (fun x => decide (x ≠ e))).map (fun x => x.fileSize)).sum +
      e.fileSize = (l.map (fun x => x.fileSize)).sum := by
  induction l with
  | nil => cases he
  | cons a t ih =>
    rcases List.mem_cons.mp he with rfl | hmem
    · have hnot : e ∉ t := (List.nodup_cons.mp hl).1
      have hfilter : t.filter (fun x => decide (x ≠ e)) = t := by
        apply List.filter_eq_self.mpr
        intro x hx
        simp only [decide_eq_true_eq]
        exact fun hxe => hnot (hxe ▸ hx)
      rw [List.filter_cons, if_neg (by simp), hfilter, List.map_cons,
        List.sum_cons]
      omega
    · have hne : a ≠ e := fun h => (List.nodup_cons.mp hl).1 (h ▸ hmem)
      have ihx := ih (List.nodup_cons.mp hl).2 hmem
      simp only [List.filter_cons, decide_eq_true_eq]
      rw [if_pos hne]
      simp only [List.map_cons, List.sum_cons]
      omega

lemma sum_sizes_filter_partition (l : List CacheEntry) (p : CacheEntry → Bool) :
    ((l.filter p).map (fun x => x.fileSize)).sum +
      ((l.filter (fun x => !(p x))).map (fun x => x.fileSize)).sum =
      (l.map (fun x => x.fileSize)).sum := by
  induction l with
  | nil => rfl
  | cons a t ih =>
    by_cases hp : p a = true <;> simp [List.filter_cons, hp] <;> omega

lemma foldl_id {α β : Type} (step : β → α → β) (l : List α) (acc : β)
    (h : ∀ a ∈ l, ∀ b, step b a = b) : l.foldl step acc = acc := by
  induction l generalizing acc with
  | nil => rfl
  | cons a t ih =>
    rw [List.foldl_cons, h a (List.mem_cons_self a t)]
    exact ih acc (fun x hx b => h x (List.mem_cons_of_mem a hx) b)

lemma runGcExpiry_no_candidates (s : CacheState)
    (h : getGcCandidates s = []) : runGcExpiry s none = (s, 0, 0) := by
  unfold runGcExpiry
  rw [h]
  rfl

lemma runGcOrphans_noop (st : CacheState)
    (h : ∀ f ∈ st.files, f.1 ∈ st.entries.map (fun x => x.mediaPath)) :
    runGcOrphans st = (st, 0, 0) := by
  simp only [runGcOrphans]
  apply foldl_id
  intro f hf b
  obtain ⟨st', cnt, freed⟩ := b
  simp [h f hf]

/-- The eviction loop deletes a greedy prefix of its candidate list: there is
a split `cands = pre ++ suf` such that exactly the entries of `pre` are gone,
the freed bytes equal the DB size drop, and the loop stopped either because
the candidates ran out or because enough bytes were freed. -/
lemma capacityEvictLoop_spec (cands : List CacheEntry) :
    ∀ (st : CacheState) (need cnt freed : Nat),
      (∀ e ∈ cands, e ∈ st.entries) → cands.Nodup → st.entries.Nodup →
      (st.entries.map (fun x => (x.sourceId, x.quality))).Nodup →
      (st.entries.map (fun x => x.mediaPath)).Nodup →
      st.files = st.entries.map (fun x => (x.mediaPath, x.fileSize)) →
      ∃ pre suf, cands = pre ++ suf ∧
        (capacityEvictLoop need cands st cnt freed).1.entries =
          st.entries.filter (fun x => decide (x ∉ pre)) ∧
        ((capacityEvictLoop need cands st cnt freed).2.2 +
            totalDbSize (capacityEvictLoop need cands st cnt freed).1 =
          freed + totalDbSize st) ∧
        (suf = [] ∨ need ≤ (capacityEvictLoop need cands st cnt freed).2.2) := by
  induction cands with
  | nil =>
    intro st need cnt freed _ _ _ _ _ _
    refine ⟨[], [], rfl, ?_, ?_, Or.inl rfl⟩
    · simp [capacityEvictLoop]
    · simp [capacityEvictLoop]
  | cons e rest ih =>
    intro st need cnt freed hsub hcnd hnd hk hp hf
    by_cases hstop : need ≤ freed
    · refine ⟨[], e :: rest, rfl, ?_, ?_, Or.inr ?_⟩
      · simp [capacityEvictLoop, hstop]
      · simp [capacityEvictLoop, hstop]
      · simp [capacityEvictLoop, hstop]
    · have hemem : e ∈ st.entries := hsub e (List.mem_cons_self e rest)
      have hget : fsGet (gcDeleteEntry st e.sourceId e.quality).files
          e.mediaPath = some e.fileSize := by
        show fsGet st.files e.mediaPath = some e.fileSize
        rw [hf]
        exact fsGet_map_entries st.entries e hp hemem
      have hstep : capacityEvictLoop need (e :: rest) st cnt freed =
          capacityEvictLoop need rest
            { gcDeleteEntry st e.sourceId e.quality with
                files := fsRemove (gcDeleteEntry st e.sourceId e.quality).files
                  e.mediaPath }
            (cnt + 1) (freed + e.fileSize) := by
        simp only [capacityEvictLoop]
        rw [if_neg hstop, hget]
      have hent2 : ({ gcDeleteEntry st e.sourceId e.quality with
          files := fsRemove (gcDeleteEntry st e.sourceId e.quality).files
            e.mediaPath } : CacheState).entries =
          st.entries.filter (fun x => decide (x ≠ e)) :=
        gcDeleteEntry_entries_eq st e hk hemem
      have hfiles2 : ({ gcDeleteEntry st e.sourceId e.quality with
          files := fsRemove (gcDeleteEntry st e.sourceId e.quality).files
            e.mediaPath } : CacheState).files =
          (st.entries.filter (fun x => decide (x ≠ e))).map
            (fun x => (x.mediaPath, x.fileSize)) := by
        show fsRemove st.files e.mediaPath = _
        rw [hf]
        exact fsRemove_map_filter_ne st.entries e hp hemem
      have henotrest : e ∉ rest := (List.nodup_cons.mp hcnd).1
      have hsub2 : ∀ x ∈ rest, x ∈ st.entries.filter (fun x => decide (x ≠ e)) := by
        intro x hx
        refine List.mem_filter.mpr ⟨hsub x (List.mem_cons_of_mem e hx), ?_⟩
        simp only [decide_eq_true_eq]
        exact fun hxe => henotrest (hxe ▸ hx)
      have hfilsub : (st.entries.filter (fun x => decide (x ≠ e))).Sublist
          st.entries := List.filter_sublist st.entries
      obtain ⟨pre', suf', hps', hent', htot', hdisj'⟩ :=
        ih ({ gcDeleteEntry st e.sourceId e.quality with
              files := fsRemove (gcDeleteEntry st e.sourceId e.quality).files
                e.mediaPath })
          need (cnt + 1) (freed + e.fileSize)
          (by rw [hent2]; exact hsub2)
          ((List.nodup_cons.mp hcnd).2)
          (by rw [hent2]; exact List.Nodup.sublist hfilsub hnd)
          (by rw [hent2]
              exact List.Nodup.sublist (List.Sublist.map _ hfilsub) hk)
          (by rw [hent2]
              exact List.Nodup.sublist (List.Sublist.map _ hfilsub) hp)
          (by rw [hfiles2, hent2])
      refine ⟨e :: pre', suf', by rw [hps']; rfl, ?_, ?_, ?_⟩
      · rw [hstep, hent', hent2, List.filter_filter]
        apply List.filter_congr
        intro x _
        by_cases h1 : x = e <;> by_cases h2 : x ∈ pre' <;>
          simp [h1, h2, List.mem_cons]
      · rw [hstep]
        have hsz := sum_sizes_filter_ne st.entries e hnd hemem
        have htots2 : totalDbSize ({ gcDeleteEntry st e.sourceId e.quality with
            files := fsRemove (gcDeleteEntry st e.sourceId e.quality).files
              e.mediaPath } : CacheState) =
            ((st.entries.filter (fun x => decide (x ≠ e))).map
              (fun x => x.fileSize)).sum := by
          unfold totalDbSize
          rw [hent2]
        rw [htots2] at htot'
        unfold totalDbSize at *
        omega
      · rw [hstep]
        exact hdisj'

/-- C2 (amended): on a consistent cache state with distinct timestamps, no
expiry candidates, a positive capacity budget that the DB total exceeds, and
enough non-keep_forever bytes to reach the budget, a full `run_gc` brings the
total to at most the budget, never evicts a keep_forever entry, and evicts
strictly oldest-first: every evicted entry is older than every surviving
non-keep_forever entry. -/
theorem runGc_capacity_eviction (s : CacheState) (limit : Nat)
    (hcapcfg : s.capacityBytes = some limit)
    (hpos : 0 < limit)
    (hover : totalDbSize s > limit)
    (hts : s.entries.Pairwise (fun a b => a.cachedAt ≠ b.cachedAt))
    (hnoexp : getGcCandidates s = [])
    (hk : (s.entries.map (fun x => (x.sourceId, x.quality))).Nodup)
    (hp : (s.entries.map (fun x => x.mediaPath)).Nodup)
    (hf : s.files = s.entries.map (fun x => (x.mediaPath, x.fileSize)))
    (hfeas : totalDbSize s - limit ≤
      ((s.entries.filter
          (fun e => metaPolicy s e.sourceId ≠ some "keep_forever")).map
        (fun x => x.fileSize)).sum) :
    totalDbSize (runGc s none).1 ≤ limit ∧
    (∀ e ∈ s.entries, metaPolicy s e.sourceId = some "keep_forever" →
      e ∈ (runGc s none).1.entries) ∧
    (∀ d e, d ∈ s.entries → d ∉ (runGc s none).1.entries →
      e ∈ (runGc s none).1.entries →
      metaPolicy s e.sourceId ≠ some "keep_forever" →
      d.cachedAt < e.cachedAt) := by
  have hentnd : s.entries.Nodup := List.Nodup.of_map _ hk
  have h1 := runGcExpiry_no_candidates s hnoexp
  have h2 : runGcOrphans s = (s, 0, 0) := by
    apply runGcOrphans_noop
    intro f hfmem
    rw [hf] at hfmem
    obtain ⟨x, hx, rfl⟩ := List.mem_map.mp hfmem
    exact List.mem_map_of_mem _ hx
  have hrun : runGc s none =
      capacityEvictLoop (totalDbSize s - limit) (capacityCands s) s 0 0 := by
    rcases hLL : capacityEvictLoop (totalDbSize s - limit) (capacityCands s) s 0 0
      with ⟨s3, c3, f3⟩
    simp only [runGc, h1, h2, runGcCapacity, hcapcfg]
    rw [if_pos hover, hLL]
    simp
  have hcmem : ∀ x ∈ capacityCands s, x ∈ s.entries := by
    intro x hx
    exact List.mem_of_mem_filter
      ((List.perm_insertionSort cacheLE _).mem_iff.mp hx)
  have hfilnd : (s.entries.filter
      (fun e => metaPolicy s e.sourceId ≠ some "keep_forever")).Nodup :=
    List.Nodup.sublist (List.filter_sublist _) hentnd
  have hcnd : (capacityCands s).Nodup :=
    ((List.perm_insertionSort cacheLE _).nodup_iff).mpr hfilnd
  obtain ⟨pre, suf, hps, hent, htot, hdisj⟩ :=
    capacityEvictLoop_spec (capacityCands s) s (totalDbSize s - limit) 0 0
      hcmem hcnd hentnd hk hp hf
  have hmemiff : ∀ x ∈ s.entries,
      (x ∈ capacityCands s ↔ metaPolicy s x.sourceId ≠ some "keep_forever") := by
    intro x hx
    rw [capacityCands, (List.perm_insertionSort cacheLE _).mem_iff,
      List.mem_filter]
    simp [hx]
  have htotal_res : totalDbSize (runGc s none).1 =
      ((s.entries.filter (fun x => decide (x ∉ pre))).map
        (fun x => x.fileSize)).sum := by
    rw [hrun]
    show (((capacityEvictLoop (totalDbSize s - limit) (capacityCands s)
        s 0 0).1.entries).map (fun x => x.fileSize)).sum = _
    rw [hent]
  refine ⟨?_, ?_, ?_⟩
  · rcases hdisj with hsuf | hge
    · have hpre : pre = capacityCands s := by
        rw [hps, hsuf, List.append_nil]
      have hpart := sum_sizes_filter_partition s.entries
        (fun x => decide (x ∈ capacityCands s))
      have hc1 : s.entries.filter (fun x => !(decide (x ∈ capacityCands s))) =
          s.entries.filter (fun x => decide (x ∉ pre)) := by
        apply List.filter_congr
        intro x _
        simp [hpre]
      have hc2 : s.entries.filter (fun x => decide (x ∈ capacityCands s)) =
          s.entries.filter
            (fun e => metaPolicy s e.sourceId ≠ some "keep_forever") := by
        apply List.filter_congr
        intro x hx
        exact decide_eq_decide.mpr (hmemiff x hx)
      rw [hc2, hc1] at hpart
      have hall : (s.entries.map (fun x => x.fileSize)).sum = totalDbSize s :=
        rfl
      rw [hall] at hpart
      rw [htotal_res]
      omega
    · have htot' : (runGc s none).2.2 + totalDbSize (runGc s none).1 =
          0 + totalDbSize s := by
        rw [hrun]
        exact htot
      have hge' : totalDbSize s - limit ≤ (runGc s none).2.2 := by
        rw [hrun]
        exact hge
      omega
  · intro e he hkf
    have hnotc : e ∉ capacityCands s := fun hc => (hmemiff e he).mp hc hkf
    have hnotpre : e ∉ pre := fun hpre2 => by
      apply hnotc
      rw [hps]
      exact List.mem_append_left suf hpre2
    rw [hrun, hent]
    refine List.mem_filter.mpr ⟨he, ?_⟩
    simp [hnotpre]
  · intro d e' hd hdnot he' hkf'
    rw [hrun, hent] at hdnot he'
    have hdpre : d ∈ pre := by
      by_contra hnd2
      exact hdnot (List.mem_filter.mpr ⟨hd, by simp [hnd2]⟩)
    have he'mem : e' ∈ s.entries := (List.mem_filter.mp he').1
    have he'notpre : e' ∉ pre := by
      have hq := (List.mem_filter.mp he').2
      simpa using hq
    have he'c : e' ∈ capacityCands s := (hmemiff e' he'mem).mpr hkf'
    have he'app : e' ∈ pre ++ suf := by
      rw [← hps]
      exact he'c
    have he'suf : e' ∈ suf := by
      rcases List.mem_append.mp he'app with hcase | hcase
      · exact absurd hcase he'notpre
      · exact hcase
    have hsortapp : List.Sorted cacheLE (pre ++ suf) := by
      rw [← hps]
      exact List.sorted_insertionSort cacheLE _
    have hle : cacheLE d e' :=
      (List.pairwise_append.mp hsortapp).2.2 d hdpre e' he'suf
    have htsfil : (s.entries.filter
        (fun e => metaPolicy s e.sourceId ≠ some "keep_forever")).Pairwise
        (fun a b => a.cachedAt ≠ b.cachedAt) :=
      List.Pairwise.sublist (List.filter_sublist _) hts
    have htsc : (pre ++ suf).Pairwise (fun a b => a.cachedAt ≠ b.cachedAt) := by
      rw [← hps]
      exact ((List.perm_insertionSort cacheLE _).pairwise_iff
        (fun hxy => hxy.symm)).mpr htsfil
    have hne : d.cachedAt ≠ e'.cachedAt :=
      (List.pairwise_append.mp htsc).2.2 d hdpre e' he'suf
    exact lt_of_le_of_ne hle hne

/-- Witness for C2 (amended): three entries totalling 20 bytes over an 8-byte
budget; the two oldest are evicted and the newest survives. -/
theorem runGc_capacity_eviction_witness :
    totalDbSize (runGc c2OkState none).1 ≤ 8 ∧
    (⟨"s1", "best", "data/media_cache/p1.mp4", 10, 50⟩ : CacheEntry).cachedAt <
      (⟨"s3", "best", "data/media_cache/p3.mp4", 4, 70⟩ : CacheEntry).cachedAt :=
  ⟨(runGc_capacity_eviction c2OkState 8 rfl (by decide) (by decide) (by decide)
      (by decide) (by decide) (by decide) (by decide) (by decide)).1,
   (runGc_capacity_eviction c2OkState 8 rfl (by decide) (by decide) (by decide)
      (by decide) (by decide) (by decide) (by decide) (by decide)).2.2
     ⟨"s1", "best", "data/media_cache/p1.mp4", 10, 50⟩
     ⟨"s3", "best", "data/media_cache/p3.mp4", 4, 70⟩
     (by decide) (by decide) (by decide) (by decide)⟩

/-- Counterexample to C2 as stated: a single keep_forever entry of 10 bytes
against a positive 5-byte budget — the full `run_gc` evicts nothing, so the
total does not come down to the budget. -/
theorem runGc_capacity_cex :
    c2CexState.capacityBytes = some 5 ∧
    totalDbSize c2CexState = 10 ∧
    (c2CexState.entries.Pairwise fun a b => a.cachedAt ≠ b.cachedAt) ∧
    totalDbSize (runGc c2CexState none).1 = 10 ∧
    ¬ totalDbSize (runGc c2CexState none).1 ≤ 5 := by
  refine ⟨rfl, rfl, ?_, ?_, ?_⟩
  · decide
  · decide
  · decide

end DiTing
